import Mathlib

/-!
Verification of the dac_bridge PWM-calibration and current-sensing core
(`src/main/python/dac_bridge/pwm_calibration.py` and
`src/main/python/dac_bridge/current_sensor.py`).

Modelling conventions:
* Python floats are modelled as exact rationals (`ℚ`); all the properties
  checked here are branch decisions and exact algebraic identities that are
  stable under this idealisation.
* Python dicts with integer keys are modelled as association lists
  `List (ℤ × ℚ)` with insert-or-override semantics (`dictInsert`); iteration
  order is insertion order, as in CPython.
* `json.loads` is not re-implemented: a parsed payload is an `Option Json`
  value (`none` = `JSONDecodeError`).  The Python builtins `int(str)` and
  `float(x)` are modelled by `pyIntOfString` / `pyFloatOfJson`.
* Code paths that raise an uncaught exception are modelled explicitly
  (`PyResult.attrError` for the `AttributeError` raised by `data.items()`
  on a non-dict JSON value).
-/

namespace DacBridge

/-! ### Association-list dictionaries (CPython dict with `ℤ` keys) -/

/-- Python dict assignment `d[k] = v`: override in place if the key exists,
append at the end otherwise. -/
def dictInsert (m : List (ℤ × ℚ)) (k : ℤ) (v : ℚ) : List (ℤ × ℚ) :=
  match m with
  | [] => [(k, v)]
  | (k', v') :: rest =>
    if k' = k then (k, v) :: rest else (k', v') :: dictInsert rest k v

/-- Python dict lookup `d.get(k, default)`. -/
def dictGetD (m : List (ℤ × ℚ)) (k : ℤ) (d : ℚ) : ℚ :=
  match m with
  | [] => d
  | (k', v') :: rest => if k' = k then v' else dictGetD rest k d

/-- Keys of an association list. -/
def dictKeys (m : List (ℤ × ℚ)) : List ℤ := m.map Prod.fst

/-! ### pwm_calibration.py : module-level tables -/

/-- Table `PWM_CALIBRATION_GPIO18` (measured, duty % ↦ volts). -/
def PWM_CALIBRATION_GPIO18 : List (ℤ × ℚ) :=
  [(0, 0), (3, 1/100), (4, 2/100), (5, 37/100), (6, 68/100), (7, 92/100),
   (8, 123/100), (9, 134/100), (10, 148/100), (15, 206/100), (20, 263/100),
   (25, 319/100), (30, 377/100), (35, 432/100), (40, 489/100), (45, 543/100),
   (50, 599/100), (55, 654/100), (60, 709/100), (65, 763/100), (70, 819/100),
   (75, 872/100), (80, 928/100), (85, 982/100), (90, 1017/100),
   (95, 1018/100), (100, 1019/100)]

/-- Table `PWM_CALIBRATION_GPIO19` (identical measured values in the source). -/
def PWM_CALIBRATION_GPIO19 : List (ℤ × ℚ) := PWM_CALIBRATION_GPIO18

/-- Linear table `PWM_CALIBRATION_LINEAR`, i.e. 0 ↦ 0.0 V and 100 ↦ 10.0 V. -/
def PWM_CALIBRATION_LINEAR : List (ℤ × ℚ) := [(0, 0), (100, 10)]

/-! ### pwm_calibration.py : `_pwm_for_voltage` -/

/-- Sorting key used by `sorted(calibration.items(), key=lambda x: x[0])`. -/
def keyLE (a b : ℤ × ℚ) : Prop := a.1 ≤ b.1

instance : DecidableRel keyLE := fun a b => inferInstanceAs (Decidable (a.1 ≤ b.1))

instance : IsTotal (ℤ × ℚ) keyLE := ⟨fun a b => Int.le_total a.1 b.1⟩

instance : IsTrans (ℤ × ℚ) keyLE := ⟨fun _ _ _ h h' => le_trans h h'⟩

/-- Model of `sorted(calibration.items(), key=lambda x: x[0])` — Python's stable sort
by duty; a stable sort is unique, so insertion sort denotes it. -/
def sortPoints (cal : List (ℤ × ℚ)) : List (ℤ × ℚ) := List.insertionSort keyLE cal

/-- Python `min` of a nonempty list (the empty case is unreachable in the
source; `0` is a junk value). -/
def pyMin : List ℚ → ℚ
  | [] => 0
  | v :: rest => rest.foldl min v

/-- Python `max` of a nonempty list. -/
def pyMax : List ℚ → ℚ
  | [] => 0
  | v :: rest => rest.foldl max v

/-- The clamp `target_voltage = max(min_voltage, min(max_voltage, target_voltage))`. -/
def pwmClamp (points : List (ℤ × ℚ)) (target : ℚ) : ℚ :=
  max (pyMin (points.map Prod.snd)) (min (pyMax (points.map Prod.snd)) target)

/-- The bracket-finding loop of `_pwm_for_voltage`:
`for i, (pwm, voltage) in enumerate(points): ...` with `lower`/`upper`
accumulators, `break` on `voltage >= target`, and the last-point fallback. -/
def bracketLoop (target : ℚ) : List (ℤ × ℚ) → (ℤ × ℚ) → (ℤ × ℚ) → ((ℤ × ℚ) × (ℤ × ℚ))
  | [], lo, up => (lo, up)
  | pv :: rest, lo, up =>
    let lo' := if pv.2 ≤ target then pv else lo
    if pv.2 ≥ target then (lo', pv)
    else
      match rest with
      | [] => (lo', pv)
      | _ :: _ => bracketLoop target rest lo' up

/-- Interpolation step of `_pwm_for_voltage` after the clamp: find the
bracket, return `lower_pwm` exactly on a near-zero span, else interpolate. -/
def pwmInterp (points : List (ℤ × ℚ)) (target : ℚ) : ℚ :=
  let h := points.headD (0, 0)
  let lu := bracketLoop target points h h
  if |lu.2.2 - lu.1.2| < 1/1000 then (lu.1.1 : ℚ)
  else (lu.1.1 : ℚ) + (target - lu.1.2) / (lu.2.2 - lu.1.2) * ((lu.2.1 : ℚ) - (lu.1.1 : ℚ))

/-- Function `_pwm_for_voltage(target_voltage, calibration)`. -/
def _pwm_for_voltage (cal : List (ℤ × ℚ)) (target : ℚ) : ℚ :=
  let points := sortPoints cal
  pwmInterp points (pwmClamp points target)

/-! ### pwm_calibration.py : JSON payloads and Python builtins -/

/-- A parsed JSON value as produced by `json.loads`. -/
inductive Json : Type
  | obj : List (String × Json) → Json
  | arr : List Json → Json
  | num : ℚ → Json
  | str : String → Json
  | bool : Bool → Json
  | null : Json

/-- Python truthiness of a parsed JSON value (`if not data`). -/
def Json.falsy : Json → Bool
  | .obj l => l.isEmpty
  | .arr l => l.isEmpty
  | .num q => q == 0
  | .str s => s.isEmpty
  | .bool b => !b
  | .null => true

/-- Whether the value is a JSON object (a Python dict, on which `.items()`
is legal). -/
def Json.isObj : Json → Bool
  | .obj _ => true
  | _ => false

/-- All-digits parse of a character list into a natural number. -/
def parseDigits : List Char → Option ℕ
  | [] => none
  | cs =>
    if cs.all (fun c => c.isDigit) then
      some (cs.foldl (fun n c => 10 * n + (c.toNat - 48)) 0)
    else none

/-- Strip leading and trailing ASCII whitespace (Python `int`/`float`
accept surrounded whitespace). -/
def stripWS (cs : List Char) : List Char :=
  ((cs.dropWhile Char.isWhitespace).reverse.dropWhile Char.isWhitespace).reverse

/-- Python `int(s)` for a string `s` (stripped sign + digits; `none` models
`ValueError`).  Underscore separators are not modelled. -/
def pyIntOfString (s : String) : Option ℤ :=
  match stripWS s.toList with
  | '-' :: rest => (parseDigits rest).map (fun n => -(n : ℤ))
  | '+' :: rest => (parseDigits rest).map (fun n => (n : ℤ))
  | cs => (parseDigits cs).map (fun n => (n : ℤ))

/-- Decimal-fraction parse: digits with at most one dot. -/
def parseDecimal (cs : List Char) : Option ℚ :=
  match cs.splitOn '.' with
  | [intPart] => (parseDigits intPart).map (fun n => (n : ℚ))
  | [intPart, fracPart] =>
    match parseDigits intPart, parseDigits fracPart with
    | some n, some f => some ((n : ℚ) + (f : ℚ) / (10 ^ fracPart.length : ℚ))
    | _, _ => none
  | _ => none

/-- Python `float(s)` for a string (simple decimal forms only; `none`
models `ValueError`). -/
def pyFloatOfString (s : String) : Option ℚ :=
  match stripWS s.toList with
  | '-' :: rest => (parseDecimal rest).map (fun q => -q)
  | '+' :: rest => parseDecimal rest
  | cs => parseDecimal cs

/-- Python `float(v)` applied to a parsed JSON value; `none` models the
`ValueError`/`TypeError` both caught by `update_from_mqtt`. -/
def pyFloatOfJson : Json → Option ℚ
  | .num q => some q
  | .str s => pyFloatOfString s
  | .bool b => some (if b then 1 else 0)
  | _ => none

/-! ### pwm_calibration.py : CalibrationManager -/

/-- The state of a `CalibrationManager`: `self.tables` always has exactly
the keys 18 and 19 (set in `__init__`, only overwritten by
`update_from_mqtt` for those keys), plus the `self.mqtt_loaded` flags. -/
structure CalState : Type where
  table18 : List (ℤ × ℚ)
  table19 : List (ℤ × ℚ)
  loaded18 : Bool
  loaded19 : Bool
deriving DecidableEq

/-- Constructor `CalibrationManager.__init__`. -/
def initState : CalState :=
  ⟨PWM_CALIBRATION_GPIO18, PWM_CALIBRATION_GPIO19, false, false⟩

/-- Lookup `self.tables[gpio]` as a partial map (`gpio in self.tables`). -/
def tableFor (st : CalState) (gpio : ℤ) : Option (List (ℤ × ℚ)) :=
  if gpio = 18 then some st.table18
  else if gpio = 19 then some st.table19
  else none

/-- Assignment `self.tables[gpio] = t` (only ever called with gpio ∈ {18, 19}). -/
def setTable (st : CalState) (gpio : ℤ) (t : List (ℤ × ℚ)) : CalState :=
  if gpio = 18 then { st with table18 := t }
  else if gpio = 19 then { st with table19 := t }
  else st

/-- Assignment `self.mqtt_loaded[gpio] = True`. -/
def setLoaded (st : CalState) (gpio : ℤ) : CalState :=
  if gpio = 18 then { st with loaded18 := true }
  else if gpio = 19 then { st with loaded19 := true }
  else st

/-- Outcome of a call to `update_from_mqtt`: a returned boolean, or an
uncaught `AttributeError` (from `data.items()` on a non-dict). -/
inductive PyResult : Type
  | ok : Bool → PyResult
  | attrError : PyResult
deriving DecidableEq

/-- The validation loop of `update_from_mqtt`:
`for k, v in data.items(): pwm = int(k); voltage = float(v); ...` building
`new_table`, skipping out-of-range entries, aborting (caught
`ValueError`/`TypeError`, modelled as `none`) on a failed coercion. -/
def buildTable : List (String × Json) → List (ℤ × ℚ) → Option (List (ℤ × ℚ))
  | [], acc => some acc
  | (k, v) :: rest, acc =>
    match pyIntOfString k with
    | none => none
    | some pwm =>
      match pyFloatOfJson v with
      | none => none
      | some voltage =>
        if ¬(0 ≤ pwm ∧ pwm ≤ 100) then buildTable rest acc
        else if ¬(0 ≤ voltage ∧ voltage ≤ 12) then buildTable rest acc
        else buildTable rest (dictInsert acc pwm voltage)

/-- Method `CalibrationManager.update_from_mqtt(gpio, json_str)`, taking the
outcome of `json.loads(json_str)` (`none` = `JSONDecodeError`). -/
def update_from_mqtt (st : CalState) (gpio : ℤ) (parsed : Option Json) :
    PyResult × CalState :=
  if gpio ≠ 18 ∧ gpio ≠ 19 then (.ok false, st)
  else
    match parsed with
    | none => (.ok false, st)
    | some data =>
      if data.falsy then (.ok false, st)
      else
        match data with
        | .obj entries =>
          match buildTable entries [] with
          | none => (.ok false, st)
          | some newTable =>
            if newTable.length < 2 then (.ok false, st)
            else (.ok true, setLoaded (setTable st gpio newTable) gpio)
        | _ => (.attrError, st)

/-- Method `CalibrationManager.get_pwm_for_percent(gpio, percent)`. -/
def get_pwm_for_percent (st : CalState) (gpio : ℤ) (percent : ℚ) : ℚ :=
  match tableFor st gpio with
  | none => percent
  | some t => _pwm_for_voltage t (percent / 100 * 10)

/-- Method `CalibrationManager.export_json(gpio)` up to JSON serialisation:
the `dict(sorted(self.tables[gpio].items()))` whose `json.dumps` is the
published string (`json.dumps` preserves this insertion order). -/
def export_table (st : CalState) (gpio : ℤ) : List (ℤ × ℚ) :=
  match tableFor st gpio with
  | none => []
  | some t => sortPoints t

/-! ### current_sensor.py : constants -/

/-- Constant `MAINS_VOLTAGE = 230.0`. -/
def MAINS_VOLTAGE : ℚ := 230

/-- Constant `NOISE_THRESHOLD_WATTS = 3.0`. -/
def NOISE_THRESHOLD_WATTS : ℚ := 3

/-- Constant `MAX_POWER_WATTS = 500.0`. -/
def MAX_POWER_WATTS : ℚ := 500

/-- Constant `EMA_ALPHA = 0.3`. -/
def EMA_ALPHA : ℚ := 3/10

/-- Constant `SPIKE_FILTER_PERCENTILE = 10`. -/
def SPIKE_FILTER_PERCENTILE : ℕ := 10

/-- Constant `CHANNEL_CALIBRATION` (per-ADC-channel gain correction). -/
def CHANNEL_CALIBRATION : List (ℤ × ℚ) :=
  [(0, 1), (1, 17/20), (2, 1), (3, 1), (4, 1), (5, 1), (6, 1), (7, 1)]

/-! ### current_sensor.py : CurrentSensor -/

/-- Python `sorted` on a float list (total order on `ℚ`, so any stable
sort; insertion sort denotes it). -/
def sortSamples (samples : List ℚ) : List ℚ :=
  List.insertionSort (· ≤ ·) samples

/-- Method `CurrentSensor._filter_outliers(samples)`: below 10 samples return
unchanged, else trim `max 1 (len * 10 // 100)` from each end of the sorted
list (`sorted_samples[trim_count:-trim_count]`). -/
def filter_outliers (samples : List ℚ) : List ℚ :=
  if samples.length < 10 then samples
  else
    let ss := sortSamples samples
    let trimCount := max 1 (samples.length * SPIKE_FILTER_PERCENTILE / 100)
    (ss.drop trimCount).take (ss.length - 2 * trimCount)

/-- Mean of a list (`sum(filtered) / len(filtered)`). -/
def listMean (l : List ℚ) : ℚ := l.sum / l.length

/-- The DC bias actually subtracted inside `calculate_rms`: the `bias`
argument if not `None`, else the mean of the filtered samples. -/
def rmsBias (filtered : List ℚ) (bias : Option ℚ) : ℚ :=
  match bias with
  | some b => b
  | none => listMean filtered

/-- Method `CurrentSensor.calculate_rms(samples, bias)` up to the final
`math.sqrt`: the mean square of the bias-corrected filtered samples
(the source returns `sqrt` of this; squaring keeps the model in `ℚ`). -/
def calculate_rms_sq (samples : List ℚ) (bias : Option ℚ) : ℚ :=
  if samples = [] then 0
  else
    let filtered := filter_outliers samples
    let b := rmsBias filtered bias
    (filtered.map (fun s => (s - b) ^ 2)).sum / filtered.length

/-- The truthiness dispatch in `read_current`:
`bias = self._bias_voltage if self._bias_voltage else None`.
`none` models `self._bias_voltage is None` (never calibrated). -/
def biasArgOf (biasVoltage : Option ℚ) : Option ℚ :=
  match biasVoltage with
  | some b => if b = 0 then none else some b
  | none => none

/-- The bias value `read_current` ends up subtracting, as a function of the
stored `_bias_voltage` and the filtered samples. -/
def read_current_bias_used (biasVoltage : Option ℚ) (samples : List ℚ) : ℚ :=
  rmsBias (filter_outliers samples) (biasArgOf biasVoltage)

/-- The squared RMS voltage computed by `read_current` from the stored
`_bias_voltage` and the raw sample batch. -/
def read_current_rms_sq (biasVoltage : Option ℚ) (samples : List ℚ) : ℚ :=
  calculate_rms_sq samples (biasArgOf biasVoltage)

/-- Method `CurrentSensor.read_power`, parameterised by the measured RMS current
(`self.read_current()` is hardware I/O): mains scaling, per-channel
calibration, noise floor, disconnect ceiling. -/
def read_power (channel : ℤ) (current : ℚ) : ℚ :=
  let power := current * MAINS_VOLTAGE
  let power := power * dictGetD CHANNEL_CALIBRATION channel 1
  if power < NOISE_THRESHOLD_WATTS then 0
  else if power > MAX_POWER_WATTS then 0
  else power

/-! ### current_sensor.py : CurrentMonitor EMA smoothing -/

/-- Python `round` (banker's rounding, half to even). -/
def pyRound (q : ℚ) : ℤ :=
  let f := ⌊q⌋
  let r := q - (f : ℚ)
  if r < 1/2 then f
  else if 1/2 < r then f + 1
  else if f % 2 = 0 then f else f + 1

/-- One channel's EMA update inside `read_all_power_filtered`. -/
def emaStep (ema raw : ℚ) : ℚ :=
  if raw = 0 then 0
  else if ema = 0 ∧ raw > 0 then raw
  else if |raw - ema| > 50 then raw
  else EMA_ALPHA * raw + (1 - EMA_ALPHA) * ema

/-- Method `CurrentMonitor.read_all_power_filtered`, parameterised by the raw
power read per channel (`sensor.read_power()` is hardware I/O): folds
over the channel list, updating `self._ema_power` and collecting
`readings[ch] = round(self._ema_power[ch])`. -/
def read_all_power_filtered (channels : List ℤ) (ema : ℤ → ℚ) (raw : ℤ → ℚ) :
    (ℤ → ℚ) × List (ℤ × ℤ) :=
  channels.foldl
    (fun acc ch =>
      let e := emaStep (acc.1 ch) (raw ch)
      (Function.update acc.1 ch e, acc.2 ++ [(ch, pyRound e)]))
    (ema, [])

/-! ## Helper lemmas -/

theorem rapf_foldl (raw : ℤ → ℚ) :
    ∀ (channels : List ℤ) (ema : ℤ → ℚ) (acc : List (ℤ × ℤ)),
      channels.Nodup →
      channels.foldl
        (fun acc ch =>
          let e := emaStep (acc.1 ch) (raw ch)
          (Function.update acc.1 ch e, acc.2 ++ [(ch, pyRound e)]))
        (ema, acc) =
      (fun ch => if ch ∈ channels then emaStep (ema ch) (raw ch) else ema ch,
        acc ++ channels.map (fun ch => (ch, pyRound (emaStep (ema ch) (raw ch))))) := by
  intro channels
  induction channels with
  | nil => intro ema acc _; simp
  | cons ch chs ih =>
    intro ema acc hnd
    rw [List.nodup_cons] at hnd
    obtain ⟨hch, hnd⟩ := hnd
    rw [List.foldl_cons]
    rw [ih _ _ hnd, Prod.mk.injEq]
    constructor
    · funext c
      by_cases hc : c = ch
      · subst hc
        simp [Function.update_same, hch]
      · by_cases hmem : c ∈ chs <;>
          simp [Function.update_noteq hc, hmem, hc]
    · simp only [List.append_assoc, List.singleton_append, List.map_cons]
      congr 2
      refine List.map_congr_left (fun c hc => ?_)
      have hne : c ≠ ch := fun h => hch (h ▸ hc)
      simp [Function.update_noteq hne]

theorem pyRound_of_lt_half (q : ℚ) (f : ℤ) (h1 : (f : ℚ) ≤ q)
    (h2 : q < (f : ℚ) + 1) (h3 : q - (f : ℚ) < 1/2) : pyRound q = f := by
  have hfl : ⌊q⌋ = f := Int.floor_eq_iff.mpr ⟨h1, by exact_mod_cast h2⟩
  unfold pyRound
  simp only [hfl]
  rw [if_pos h3]

theorem foldl_min_le_init (l : List ℚ) : ∀ v : ℚ, l.foldl min v ≤ v := by
  induction l with
  | nil => simp
  | cons w l ih =>
    intro v
    rw [List.foldl_cons]
    exact le_trans (ih _) (min_le_left _ _)

theorem init_le_foldl_max (l : List ℚ) : ∀ v : ℚ, v ≤ l.foldl max v := by
  induction l with
  | nil => simp
  | cons w l ih =>
    intro v
    rw [List.foldl_cons]
    exact le_trans (le_max_left _ _) (ih _)

theorem le_foldl_min (l : List ℚ) (c : ℚ) :
    ∀ v : ℚ, c ≤ v → (∀ w ∈ l, c ≤ w) → c ≤ l.foldl min v := by
  induction l with
  | nil => intro v hv _; simpa using hv
  | cons w l ih =>
    intro v hv h
    rw [List.foldl_cons]
    exact ih _ (le_min hv (h w (List.mem_cons_self w _))) fun x hx =>
      h x (List.mem_cons_of_mem _ hx)

theorem foldl_max_le (l : List ℚ) (c : ℚ) :
    ∀ v : ℚ, v ≤ c → (∀ w ∈ l, w ≤ c) → l.foldl max v ≤ c := by
  induction l with
  | nil => intro v hv _; simpa using hv
  | cons w l ih =>
    intro v hv h
    rw [List.foldl_cons]
    exact ih _ (max_le hv (h w (List.mem_cons_self w _))) fun x hx =>
      h x (List.mem_cons_of_mem _ hx)

theorem le_pyMin (l : List ℚ) (c : ℚ) (hl : l ≠ [])
    (h : ∀ w ∈ l, c ≤ w) : c ≤ pyMin l := by
  cases l with
  | nil => exact absurd rfl hl
  | cons v rest =>
    exact le_foldl_min rest c v (h v (List.mem_cons_self v _)) fun x hx =>
      h x (List.mem_cons_of_mem _ hx)

theorem pyMax_le (l : List ℚ) (c : ℚ) (hl : l ≠ [])
    (h : ∀ w ∈ l, w ≤ c) : pyMax l ≤ c := by
  cases l with
  | nil => exact absurd rfl hl
  | cons v rest =>
    exact foldl_max_le rest c v (h v (List.mem_cons_self v _)) fun x hx =>
      h x (List.mem_cons_of_mem _ hx)

theorem pyMin_le_pyMax (l : List ℚ) (hl : l ≠ []) : pyMin l ≤ pyMax l := by
  cases l with
  | nil => exact absurd rfl hl
  | cons v rest =>
    exact le_trans (foldl_min_le_init rest v) (init_le_foldl_max rest v)

theorem pwm_target_congr (cal : List (ℤ × ℚ)) (t1 t2 : ℚ)
    (h : pwmClamp (sortPoints cal) t1 = pwmClamp (sortPoints cal) t2) :
    _pwm_for_voltage cal t1 = _pwm_for_voltage cal t2 := by
  rw [_pwm_for_voltage, _pwm_for_voltage, h]

/-! ## Claims -/

/-- C1: `read_all_power_filtered` updates each channel's EMA from the new
raw power reading by exactly the four mutually exclusive rules in order
(raw = 0 ⇒ EMA 0; prior EMA = 0 and raw > 0 ⇒ EMA raw; |raw − EMA| > 50 ⇒
EMA raw; else EMA = 0.3·raw + 0.7·EMA), publishes `round(EMA)` per
channel, and the concrete seed trace from EMA = 0 is
0 ↦ 0, 45 ↦ 45, 46 ↦ 45.3 with published value 45. -/
theorem ema_filter_rules :
    (∀ e r : ℚ,
      (r = 0 → emaStep e r = 0) ∧
      (r ≠ 0 → e = 0 → 0 < r → emaStep e r = r) ∧
      (r ≠ 0 → ¬(e = 0 ∧ 0 < r) → |r - e| > 50 → emaStep e r = r) ∧
      (r ≠ 0 → ¬(e = 0 ∧ 0 < r) → ¬(|r - e| > 50) →
        emaStep e r = 3/10 * r + 7/10 * e)) ∧
    (∀ (channels : List ℤ) (ema raw : ℤ → ℚ), channels.Nodup →
      (read_all_power_filtered channels ema raw).2 =
        channels.map (fun ch => (ch, pyRound (emaStep (ema ch) (raw ch)))) ∧
      ∀ ch ∈ channels,
        (read_all_power_filtered channels ema raw).1 ch =
          emaStep (ema ch) (raw ch)) ∧
    (emaStep 0 0 = 0 ∧ emaStep 0 45 = 45 ∧ emaStep 45 46 = 453/10 ∧
      pyRound (453/10) = 45) := by
  refine ⟨fun e r => ⟨?_, ?_, ?_, ?_⟩, fun channels ema raw hnd => ?_, ?_⟩
  · intro h; simp [emaStep, h]
  · intro h he hr; simp [emaStep, h, he, hr]
  · intro h hne hgt
    rw [emaStep, if_neg h, if_neg hne, if_pos hgt]
  · intro h hne hle
    rw [emaStep, if_neg h, if_neg hne, if_neg hle]
    norm_num [EMA_ALPHA]
  · have := rapf_foldl raw channels ema [] hnd
    rw [read_all_power_filtered, this]
    exact ⟨by simp, fun ch hch => by simp [hch]⟩
  · refine ⟨by norm_num [emaStep], by norm_num [emaStep], ?_,
      pyRound_of_lt_half (453/10) 45 (by norm_num) (by norm_num) (by norm_num)⟩
    rw [emaStep, if_neg (by norm_num), if_neg (by norm_num),
      if_neg (by rw [abs_of_pos] <;> norm_num)]
    norm_num [EMA_ALPHA]

/-- Witness for C1 at the concrete seed input EMA = 45, raw = 46. -/
theorem ema_filter_rules_witness : emaStep 45 46 = 453/10 := by
  have h := (ema_filter_rules.1 45 46).2.2.2 (by norm_num)
    (by intro hc; exact absurd hc.1 (by norm_num))
    (by rw [abs_of_pos] <;> norm_num)
  rw [h]; norm_num

/-- C3: `read_power` scales current by mains voltage and the per-channel
calibration factor, returns exactly 0 below the 3 W noise floor, exactly 0
above the 500 W disconnect ceiling, and the calibrated power unchanged
otherwise; hence every return value is 0 or lies in [3, 500]. -/
theorem read_power_clamps :
    ∀ (ch : ℤ) (current : ℚ),
      (current * MAINS_VOLTAGE * dictGetD CHANNEL_CALIBRATION ch 1 < 3 →
        read_power ch current = 0) ∧
      (current * MAINS_VOLTAGE * dictGetD CHANNEL_CALIBRATION ch 1 > 500 →
        read_power ch current = 0) ∧
      (3 ≤ current * MAINS_VOLTAGE * dictGetD CHANNEL_CALIBRATION ch 1 →
        current * MAINS_VOLTAGE * dictGetD CHANNEL_CALIBRATION ch 1 ≤ 500 →
        read_power ch current =
          current * MAINS_VOLTAGE * dictGetD CHANNEL_CALIBRATION ch 1) ∧
      (read_power ch current = 0 ∨
        (3 ≤ read_power ch current ∧ read_power ch current ≤ 500)) := by
  intro ch current
  rw [read_power, NOISE_THRESHOLD_WATTS, MAX_POWER_WATTS]
  split_ifs with h1 h2
  · exact ⟨fun _ => rfl, fun _ => rfl, fun h _ => absurd h1 (by linarith),
      Or.inl rfl⟩
  · exact ⟨fun h => absurd h h1, fun _ => rfl, fun _ h => absurd h2 (by linarith),
      Or.inl rfl⟩
  · exact ⟨fun h => absurd h h1, fun h => absurd h h2, fun _ _ => rfl,
      Or.inr ⟨by linarith, by linarith⟩⟩

/-- C8: on any nonempty calibration table (monotone or not, duplicate
voltages allowed) the interpolation is total: whenever the bracketing
voltages differ by less than 0.001 the result is the lower duty exactly
(no division); otherwise the interpolation denominator is at least 0.001
in magnitude, in particular nonzero. -/
theorem pwm_for_voltage_total :
    ∀ (cal : List (ℤ × ℚ)) (target : ℚ) (lo up : ℤ × ℚ), cal ≠ [] →
      bracketLoop (pwmClamp (sortPoints cal) target) (sortPoints cal)
          ((sortPoints cal).headD (0, 0)) ((sortPoints cal).headD (0, 0)) =
        (lo, up) →
      (|up.2 - lo.2| < 1/1000 → _pwm_for_voltage cal target = lo.1) ∧
      (¬(|up.2 - lo.2| < 1/1000) →
        up.2 - lo.2 ≠ 0 ∧
        _pwm_for_voltage cal target =
          (lo.1 : ℚ) + (pwmClamp (sortPoints cal) target - lo.2) /
            (up.2 - lo.2) * ((up.1 : ℚ) - (lo.1 : ℚ))) := by
  intro cal target lo up _ hbr
  rw [_pwm_for_voltage, pwmInterp]
  simp only [hbr]
  constructor
  · intro h; rw [if_pos h]
  · intro h
    refine ⟨fun hz => h (by rw [hz]; norm_num), ?_⟩
    rw [if_neg h]

/-- Witness for C8 on the duplicate-voltage table {0: 5.0, 50: 5.0} at
target 5: the near-zero span returns duty 0 exactly. -/
theorem pwm_for_voltage_total_witness :
    _pwm_for_voltage [(0, 5), (50, 5)] 5 = 0 := by
  have hbr : bracketLoop (pwmClamp (sortPoints [(0, 5), (50, 5)]) 5)
      (sortPoints [(0, 5), (50, 5)])
      ((sortPoints [(0, 5), (50, 5)]).headD (0, 0))
      ((sortPoints [(0, 5), (50, 5)]).headD (0, 0)) = ((0, 5), (0, 5)) := by
    norm_num [sortPoints, List.insertionSort, List.orderedInsert, keyLE,
      pwmClamp, pyMin, pyMax, bracketLoop]
  have h := (pwm_for_voltage_total [(0, 5), (50, 5)] 5 (0, 5) (0, 5)
    (by simp) hbr).1 (by norm_num)
  simpa using h

/-- Witness for C3: channel 0 at 1 A gives 230 W, inside [3, 500]. -/
theorem read_power_clamps_witness : read_power 0 1 = 230 := by
  have h := (read_power_clamps 0 1).2.2.1
    (by norm_num [MAINS_VOLTAGE, dictGetD, CHANNEL_CALIBRATION])
    (by norm_num [MAINS_VOLTAGE, dictGetD, CHANNEL_CALIBRATION])
  rw [h]; norm_num [MAINS_VOLTAGE, dictGetD, CHANNEL_CALIBRATION]

/-- C6: with the linear table {0: 0.0, 100: 10.0}, the inverse
interpolation of the target voltage `percent/100*10` is the identity on
percents in [0, 100]. -/
theorem linear_identity :
    ∀ p : ℚ, 0 ≤ p → p ≤ 100 →
      _pwm_for_voltage PWM_CALIBRATION_LINEAR (p / 100 * 10) = p := by
  intro p hp0 hp100
  have hsort : sortPoints PWM_CALIBRATION_LINEAR = [(0, 0), (100, 10)] := by
    norm_num [sortPoints, PWM_CALIBRATION_LINEAR, List.insertionSort,
      List.orderedInsert, keyLE]
  have ht : p / 100 * 10 = p / 10 := by ring
  have hd0 : (0 : ℚ) ≤ p / 10 := by linarith
  have hd10 : p / 10 ≤ 10 := by linarith
  rw [_pwm_for_voltage, hsort, ht]
  have hclamp : pwmClamp [(0, 0), (100, 10)] (p / 10) = p / 10 := by
    rw [pwmClamp]
    norm_num [pyMin, pyMax]
    rw [min_eq_right hd10, max_eq_right hd0]
  rw [hclamp]
  by_cases hz : p = 0
  · subst hz; norm_num [pwmInterp, bracketLoop]
  · have hpos : 0 < p := lt_of_le_of_ne hp0 (Ne.symm hz)
    by_cases h100 : p = 100
    · subst h100; norm_num [pwmInterp, bracketLoop]
    · have hplt : p < 100 := lt_of_le_of_ne hp100 h100
      have hbr : bracketLoop (p / 10) [(0, 0), (100, 10)] (0, 0) (0, 0) =
          ((0, 0), (100, 10)) := by
        simp [bracketLoop, show ¬((0 : ℚ) ≥ p / 10) from by push_neg; linarith,
          show (0 : ℚ) ≤ p / 10 from hd0,
          show ¬((10 : ℚ) ≤ p / 10) from by push_neg; linarith,
          show (10 : ℚ) ≥ p / 10 from by linarith]
      rw [pwmInterp]
      simp only [List.headD, hbr]
      rw [if_neg (by norm_num)]
      push_cast
      field_simp
      norm_num

/-- C5 counterexample: with the manager's default GPIO-18 table (maximum
voltage 10.19 V > 10 V), percent 150 yields duty 100 while percent 100
yields 613/7 ≈ 87.57 — out-of-range percents are NOT clamped to [0, 100]
before conversion. -/
theorem pwm_percent_clamp_cex :
    get_pwm_for_percent initState 18 150 = 100 ∧
    get_pwm_for_percent initState 18 100 = 613/7 ∧
    (100 : ℚ) ≠ 613/7 := by
  refine ⟨?_, ?_, by norm_num⟩ <;>
    norm_num [get_pwm_for_percent, tableFor, initState, _pwm_for_voltage,
      sortPoints, PWM_CALIBRATION_GPIO18, PWM_CALIBRATION_GPIO19, keyLE,
      pwmClamp, pyMin, pyMax, bracketLoop, pwmInterp, List.insertionSort,
      List.orderedInsert, abs_of_pos, abs_of_nonneg]

/-- C5 (amended): `get_pwm_for_percent` does not clamp the percent; the
derived target voltage `percent/100*10` is clamped to the table's measured
voltage range instead.  Consequently percent −10 behaves exactly as
percent 0 for every stored table (table voltages being nonnegative), and
percent 150 behaves exactly as percent 100 precisely on tables whose
maximum voltage is at most 10 V (e.g. the linear table) — not on the
default tables, whose maximum is 10.19 V. -/
theorem pwm_percent_clamp_amended :
    ∀ (st : CalState) (gpio : ℤ) (t : List (ℤ × ℚ)),
      tableFor st gpio = some t → t ≠ [] → (∀ q ∈ t, 0 ≤ q.2) →
      (get_pwm_for_percent st gpio (-10) = get_pwm_for_percent st gpio 0) ∧
      ((∀ q ∈ t, q.2 ≤ 10) →
        get_pwm_for_percent st gpio 150 = get_pwm_for_percent st gpio 100) := by
  intro st gpio t hlook hne hpos
  have hperm : List.Perm (sortPoints t) t := List.perm_insertionSort keyLE t
  have hsne : sortPoints t ≠ [] := by
    intro h
    have hlen := hperm.length_eq
    rw [h] at hlen
    exact hne (List.length_eq_zero.mp hlen.symm)
  have hvne : (sortPoints t).map Prod.snd ≠ [] := by
    simpa using hsne
  have hvpos : ∀ w ∈ (sortPoints t).map Prod.snd, 0 ≤ w := by
    intro w hw
    obtain ⟨q, hq, rfl⟩ := List.mem_map.mp hw
    exact hpos q (hperm.mem_iff.mp hq)
  have hm0 : 0 ≤ pyMin ((sortPoints t).map Prod.snd) :=
    le_pyMin _ 0 hvne hvpos
  have hmM : pyMin ((sortPoints t).map Prod.snd) ≤
      pyMax ((sortPoints t).map Prod.snd) := pyMin_le_pyMax _ hvne
  simp only [get_pwm_for_percent, hlook]
  constructor
  · refine pwm_target_congr t _ _ ?_
    rw [pwmClamp, pwmClamp]
    norm_num
    rw [min_eq_right (by linarith), min_eq_right (by linarith),
      max_eq_left (by linarith), max_eq_left (by linarith)]
  · intro hle10
    have hMle : pyMax ((sortPoints t).map Prod.snd) ≤ 10 := by
      refine pyMax_le _ 10 hvne ?_
      intro w hw
      obtain ⟨q, hq, rfl⟩ := List.mem_map.mp hw
      exact hle10 q (hperm.mem_iff.mp hq)
    refine pwm_target_congr t _ _ ?_
    rw [pwmClamp, pwmClamp]
    norm_num
    rw [min_eq_left (by linarith), min_eq_left (by linarith)]

/-- Witness for C5 (amended) on a manager state holding the linear table:
percent 150 and percent 100 agree there. -/
theorem pwm_percent_clamp_amended_witness :
    get_pwm_for_percent
        ⟨PWM_CALIBRATION_LINEAR, PWM_CALIBRATION_LINEAR, false, false⟩ 18 150 =
      get_pwm_for_percent
        ⟨PWM_CALIBRATION_LINEAR, PWM_CALIBRATION_LINEAR, false, false⟩ 18 100 :=
  (pwm_percent_clamp_amended
      ⟨PWM_CALIBRATION_LINEAR, PWM_CALIBRATION_LINEAR, false, false⟩ 18
      PWM_CALIBRATION_LINEAR rfl (by simp [PWM_CALIBRATION_LINEAR])
      (by norm_num [PWM_CALIBRATION_LINEAR, List.forall_mem_cons])).2
    (by norm_num [PWM_CALIBRATION_LINEAR, List.forall_mem_cons])

theorem bracketLoop_cons (t : ℚ) (pv : ℤ × ℚ) (rest : List (ℤ × ℚ))
    (lo up : ℤ × ℚ) :
    bracketLoop t (pv :: rest) lo up =
      (if pv.2 ≥ t then ((if pv.2 ≤ t then pv else lo), pv)
       else
         match rest with
         | [] => ((if pv.2 ≤ t then pv else lo), pv)
         | _ :: _ => bracketLoop t rest (if pv.2 ≤ t then pv else lo) up) := rfl

theorem foldl_min_le_mem :
    ∀ (l : List ℚ) (w v : ℚ), w ∈ l → l.foldl min v ≤ w := by
  intro l
  induction l with
  | nil => intro w v h; simp at h
  | cons z l ih =>
    intro w v h
    rw [List.foldl_cons]
    rcases List.mem_cons.mp h with rfl | h
    · exact le_trans (foldl_min_le_init l (min v w)) (min_le_right v w)
    · exact ih w (min v z) h

theorem mem_le_foldl_max :
    ∀ (l : List ℚ) (w v : ℚ), w ∈ l → w ≤ l.foldl max v := by
  intro l
  induction l with
  | nil => intro w v h; simp at h
  | cons z l ih =>
    intro w v h
    rw [List.foldl_cons]
    rcases List.mem_cons.mp h with rfl | h
    · exact le_trans (le_max_right v w) (init_le_foldl_max l (max v w))
    · exact ih w (max v z) h

theorem pyMin_le_mem (l : List ℚ) (w : ℚ) (h : w ∈ l) : pyMin l ≤ w := by
  cases l with
  | nil => simp at h
  | cons v rest =>
    rcases List.mem_cons.mp h with rfl | h
    · exact foldl_min_le_init rest w
    · exact foldl_min_le_mem rest w v h

theorem mem_le_pyMax (l : List ℚ) (w : ℚ) (h : w ∈ l) : w ≤ pyMax l := by
  cases l with
  | nil => simp at h
  | cons v rest =>
    rcases List.mem_cons.mp h with rfl | h
    · exact init_le_foldl_max rest w
    · exact mem_le_foldl_max rest w v h

theorem bracketLoop_finds (v : ℚ) (d : ℤ) (post : List (ℤ × ℚ)) :
    ∀ (pre : List (ℤ × ℚ)) (lo up : ℤ × ℚ), (∀ x ∈ pre, x.2 < v) →
      bracketLoop v (pre ++ (d, v) :: post) lo up = ((d, v), (d, v)) := by
  intro pre
  induction pre with
  | nil =>
    intro lo up _
    simp [bracketLoop, le_refl]
  | cons x pre ih =>
    intro lo up h
    have hx : x.2 < v := h x (List.mem_cons_self x _)
    have hrest : ∀ y ∈ pre, y.2 < v := fun y hy =>
      h y (List.mem_cons_of_mem _ hy)
    rw [List.cons_append, bracketLoop_cons]
    rw [if_neg (show ¬(x.2 ≥ v) from not_le.mpr hx)]
    rw [if_pos (le_of_lt hx)]
    cases pre with
    | nil => exact ih x up (by simp)
    | cons z pre' => exact ih x up hrest

/-- C7 counterexample: in the non-monotonic table
{0: 5.0, 50: 2.0, 100: 8.0} the entry (50, 2.0) exists, yet requesting
target voltage 2.0 returns duty 0 (the scan's initial `lower`), not 50. -/
theorem exact_point_cex :
    ((50 : ℤ), (2 : ℚ)) ∈ ([(0, 5), (50, 2), (100, 8)] : List (ℤ × ℚ)) ∧
    _pwm_for_voltage [(0, 5), (50, 2), (100, 8)] 2 = 0 ∧
    (0 : ℚ) ≠ 50 := by
  refine ⟨by simp, ?_, by norm_num⟩
  norm_num [_pwm_for_voltage, sortPoints, List.insertionSort,
    List.orderedInsert, keyLE, pwmClamp, pyMin, pyMax, bracketLoop,
    pwmInterp, abs_of_pos, abs_of_nonneg]

/-- C7 (amended): the exact-duty return at a table entry's voltage holds
for tables whose voltages are strictly increasing in duty order (the
physically intended shape); with duplicate or non-monotonically placed
voltages the scan can stop at an earlier point instead. -/
theorem exact_point_return :
    ∀ (cal : List (ℤ × ℚ)) (d : ℤ) (v : ℚ),
      2 ≤ cal.length →
      (sortPoints cal).Pairwise (fun a b => a.2 < b.2) →
      (d, v) ∈ cal →
      _pwm_for_voltage cal v = d := by
  intro cal d v _ hmono hmem
  have hperm : List.Perm (sortPoints cal) cal := List.perm_insertionSort keyLE cal
  have hmem' : (d, v) ∈ sortPoints cal := hperm.mem_iff.mpr hmem
  have hvmem : v ∈ (sortPoints cal).map Prod.snd :=
    List.mem_map.mpr ⟨(d, v), hmem', rfl⟩
  obtain ⟨pre, post, hsplit⟩ := List.append_of_mem hmem'
  have hpre : ∀ x ∈ pre, x.2 < v := by
    intro x hx
    have hpa := (List.pairwise_append.mp (hsplit ▸ hmono)).2.2
    exact hpa x hx (d, v) (List.mem_cons_self _ _)
  have hclamp : pwmClamp (sortPoints cal) v = v := by
    rw [pwmClamp]
    rw [min_eq_right (mem_le_pyMax _ v hvmem),
      max_eq_right (pyMin_le_mem _ v hvmem)]
  show pwmInterp (sortPoints cal) (pwmClamp (sortPoints cal) v) = d
  rw [hclamp, hsplit]
  have hbr := bracketLoop_finds v d post pre
    ((pre ++ (d, v) :: post).headD (0, 0))
    ((pre ++ (d, v) :: post).headD (0, 0)) hpre
  simp only [pwmInterp, hbr]
  norm_num

/-- Witness for C7 on the strictly increasing linear table at entry
(100, 10). -/
theorem exact_point_return_witness :
    _pwm_for_voltage PWM_CALIBRATION_LINEAR 10 = 100 :=
  exact_point_return PWM_CALIBRATION_LINEAR 100 10
    (by simp [PWM_CALIBRATION_LINEAR])
    (by norm_num [sortPoints, PWM_CALIBRATION_LINEAR, List.insertionSort,
      List.orderedInsert, keyLE])
    (by simp [PWM_CALIBRATION_LINEAR])

/-- C4 counterexample: with a pre-calibrated bias of exactly 0.0 stored
(e.g. `calibrate_bias` averaged all-zero readings), `read_current` does
NOT subtract the stored bias: the truthiness test
`self._bias_voltage if self._bias_voltage else None` treats 0.0 as
absent, so the mean of the filtered samples (here 2) is subtracted
instead of the calibrated 0, changing the RMS (4 instead of 8). -/
theorem bias_truthiness_cex :
    read_current_bias_used (some 0) [0, 4] = 2 ∧ (2 : ℚ) ≠ 0 ∧
    read_current_rms_sq (some 0) [0, 4] = 4 ∧
    (([0, 4] : List ℚ).map (fun s => (s - 0) ^ 2)).sum / 2 = 8 ∧
    (4 : ℚ) ≠ 8 := by
  have hne : ¬(([0, 4] : List ℚ) = []) := by simp
  refine ⟨?_, by norm_num, ?_, by norm_num, by norm_num⟩
  · norm_num [read_current_bias_used, biasArgOf, rmsBias, listMean,
      filter_outliers]
  · rw [read_current_rms_sq, calculate_rms_sq, if_neg hne]
    norm_num [biasArgOf, rmsBias, listMean, filter_outliers]

/-- C4 (amended): `read_current` subtracts the stored bias only when it is
nonzero; when the bias was never calibrated — or was calibrated to exactly
0.0, which the truthiness test conflates with "never calibrated" — the
bias is computed as the mean of the filtered samples. -/
theorem bias_selection_amended :
    ∀ (b : ℚ) (samples : List ℚ),
      (b ≠ 0 → read_current_bias_used (some b) samples = b) ∧
      (read_current_bias_used none samples =
        listMean (filter_outliers samples)) ∧
      (read_current_bias_used (some 0) samples =
        listMean (filter_outliers samples)) ∧
      (samples ≠ [] → b ≠ 0 →
        read_current_rms_sq (some b) samples =
          ((filter_outliers samples).map (fun s => (s - b) ^ 2)).sum /
            (filter_outliers samples).length) := by
  intro b samples
  refine ⟨?_, ?_, ?_, ?_⟩
  · intro hb; simp [read_current_bias_used, biasArgOf, rmsBias, hb]
  · simp [read_current_bias_used, biasArgOf, rmsBias]
  · simp [read_current_bias_used, biasArgOf, rmsBias]
  · intro hs hb
    rw [read_current_rms_sq, calculate_rms_sq, if_neg hs]
    simp [biasArgOf, rmsBias, hb]

/-- Witness for C4 (amended) at a nonzero calibrated bias. -/
theorem bias_selection_amended_witness :
    read_current_bias_used (some 1) [0, 4] = 1 :=
  (bias_selection_amended 1 [0, 4]).1 (by norm_num)

/-- C2 counterexample: the payload "[1, 2]" is valid JSON but not an
object; `json.loads` yields a Python list, on which `data.items()` raises
`AttributeError` — which is not among the caught exception classes
(`JSONDecodeError`, `ValueError`, `TypeError`) — so the call raises
instead of returning False. -/
theorem update_nondict_raises :
    (update_from_mqtt initState 18
        (some (Json.arr [Json.num 1, Json.num 2]))).1 = PyResult.attrError ∧
    PyResult.attrError ≠ PyResult.ok false := by
  exact ⟨rfl, by simp⟩


/-- C2 (amended): every call of `update_from_mqtt` that does not succeed
leaves the tables and the mqtt_loaded flags of every channel unchanged,
and it returns False — rather than raising — in every failure case except
one: a payload that parses to a truthy non-object JSON value (array,
nonzero number, nonempty string, true), where `data.items()` raises an
uncaught `AttributeError`. -/
theorem update_failure_preserves :
    ∀ (st : CalState) (gpio : ℤ) (parsed : Option Json),
      ((update_from_mqtt st gpio parsed).1 ≠ PyResult.ok true →
        (update_from_mqtt st gpio parsed).2 = st) ∧
      ((update_from_mqtt st gpio parsed).1 = PyResult.attrError ↔
        (gpio = 18 ∨ gpio = 19) ∧
        ∃ data, parsed = some data ∧ data.falsy = false ∧
          data.isObj = false) := by
  intro st gpio parsed
  by_cases hg : gpio ≠ 18 ∧ gpio ≠ 19
  · rw [update_from_mqtt.eq_def, if_pos hg]
    refine ⟨fun _ => rfl, ?_⟩
    constructor
    · intro h; exact absurd h (by simp)
    · rintro ⟨hg', -⟩
      rcases hg' with h | h
      · exact absurd h hg.1
      · exact absurd h hg.2
  · have hg' : gpio = 18 ∨ gpio = 19 := by
      rcases not_and_or.mp hg with h | h
      · exact Or.inl (not_not.mp h)
      · exact Or.inr (not_not.mp h)
    cases parsed with
    | none =>
      rw [show update_from_mqtt st gpio none = (.ok false, st) from by
        rw [update_from_mqtt.eq_def, if_neg hg]]
      refine ⟨fun _ => rfl, ?_⟩
      constructor
      · intro h; exact absurd h (by simp)
      · rintro ⟨-, data, hdata, -⟩; exact absurd hdata (by simp)
    | some data =>
      rw [show update_from_mqtt st gpio (some data) =
          (if data.falsy then ((.ok false : PyResult), st)
           else
             match data with
             | .obj entries =>
               match buildTable entries [] with
               | none => (.ok false, st)
               | some newTable =>
                 if newTable.length < 2 then (.ok false, st)
                 else (.ok true, setLoaded (setTable st gpio newTable) gpio)
             | _ => (.attrError, st)) from by
        rw [update_from_mqtt.eq_def, if_neg hg]]
      by_cases hf : data.falsy
      · rw [if_pos hf]
        refine ⟨fun _ => rfl, ?_⟩
        constructor
        · intro h; exact absurd h (by simp)
        · rintro ⟨-, data', hdata, hfalse, -⟩
          rw [Option.some_inj] at hdata
          subst hdata
          rw [hf] at hfalse
          exact absurd hfalse (by simp)
      · rw [if_neg hf]
        have hf' : data.falsy = false := by
          revert hf; cases data.falsy <;> simp
        cases data with
        | obj entries =>
          cases hbt : buildTable entries [] with
          | none =>
            simp only [hbt]
            refine ⟨by intro h; trivial, ?_⟩
            constructor
            · intro h; exact absurd h (by simp)
            · rintro ⟨-, data', hdata, -, hobj⟩
              rw [Option.some_inj] at hdata
              subst hdata
              exact absurd hobj (by simp [Json.isObj])
          | some nt =>
            by_cases hlen : nt.length < 2
            · simp only [hbt, if_pos hlen]
              refine ⟨by intro h; trivial, ?_⟩
              constructor
              · intro h; exact absurd h (by simp)
              · rintro ⟨-, data', hdata, -, hobj⟩
                rw [Option.some_inj] at hdata
                subst hdata
                exact absurd hobj (by simp [Json.isObj])
            · simp only [hbt, if_neg hlen]
              refine ⟨fun h => absurd rfl h, ?_⟩
              constructor
              · intro h; exact absurd h (by simp)
              · rintro ⟨-, data', hdata, -, hobj⟩
                rw [Option.some_inj] at hdata
                subst hdata
                exact absurd hobj (by simp [Json.isObj])
        | arr l =>
          exact ⟨fun _ => rfl,
            ⟨fun _ => ⟨hg', Json.arr l, rfl, hf', rfl⟩, fun _ => rfl⟩⟩
        | num q =>
          exact ⟨fun _ => rfl,
            ⟨fun _ => ⟨hg', Json.num q, rfl, hf', rfl⟩, fun _ => rfl⟩⟩
        | str s =>
          exact ⟨fun _ => rfl,
            ⟨fun _ => ⟨hg', Json.str s, rfl, hf', rfl⟩, fun _ => rfl⟩⟩
        | bool bv =>
          exact ⟨fun _ => rfl,
            ⟨fun _ => ⟨hg', Json.bool bv, rfl, hf', rfl⟩, fun _ => rfl⟩⟩
        | null =>
          exact ⟨fun _ => rfl,
            ⟨fun _ => ⟨hg', Json.null, rfl, hf', rfl⟩, fun _ => rfl⟩⟩

/-- Witness for C2 (amended): a malformed (non-JSON) payload on channel 18
returns False and preserves the initial state. -/
theorem update_failure_preserves_witness :
    (update_from_mqtt initState 18 none).2 = initState :=
  (update_failure_preserves initState 18 none).1 (by decide)

/-- Validity of a calibration entry as checked by `update_from_mqtt`:
integer duty in [0, 100], voltage in [0, 12]. -/
def validEntry (p : ℤ × ℚ) : Prop :=
  0 ≤ p.1 ∧ p.1 ≤ 100 ∧ 0 ≤ p.2 ∧ p.2 ≤ 12

instance (p : ℤ × ℚ) : Decidable (validEntry p) :=
  inferInstanceAs (Decidable (_ ∧ _ ∧ _ ∧ _))

/-- The invariant of `CalibrationManager.tables`: both stored tables have
at least 2 entries, all valid. -/
def calInvariant (st : CalState) : Prop :=
  (2 ≤ st.table18.length ∧ ∀ p ∈ st.table18, validEntry p) ∧
  (2 ≤ st.table19.length ∧ ∀ p ∈ st.table19, validEntry p)

theorem dictInsert_append (m : List (ℤ × ℚ)) (k : ℤ) (v : ℚ) :
    k ∉ dictKeys m → dictInsert m k v = m ++ [(k, v)] := by
  induction m with
  | nil => intro _; rfl
  | cons p rest ih =>
    intro h
    obtain ⟨k', v'⟩ := p
    have hk : ¬(k' = k) := fun he => h (by simp [dictKeys, he])
    have hrest : k ∉ dictKeys rest := fun hm => h (by simp [dictKeys] at hm ⊢; exact Or.inr hm)
    rw [show dictInsert ((k', v') :: rest) k v =
        if k' = k then (k, v) :: rest else (k', v') :: dictInsert rest k v from rfl]
    rw [if_neg hk, ih hrest, List.cons_append]

theorem mem_dictInsert (m : List (ℤ × ℚ)) (k : ℤ) (v : ℚ) (p : ℤ × ℚ) :
    p ∈ dictInsert m k v → p = (k, v) ∨ p ∈ m := by
  induction m with
  | nil => intro h; simpa [dictInsert] using h
  | cons q rest ih =>
    intro h
    obtain ⟨k', v'⟩ := q
    rw [show dictInsert ((k', v') :: rest) k v =
        if k' = k then (k, v) :: rest else (k', v') :: dictInsert rest k v from rfl] at h
    by_cases hk : k' = k
    · rw [if_pos hk] at h
      rcases List.mem_cons.mp h with h | h
      · exact Or.inl h
      · exact Or.inr (List.mem_cons_of_mem _ h)
    · rw [if_neg hk] at h
      rcases List.mem_cons.mp h with h | h
      · exact Or.inr (h ▸ List.mem_cons_self _ _)
      · rcases ih h with h | h
        · exact Or.inl h
        · exact Or.inr (List.mem_cons_of_mem _ h)

theorem buildTable_cons (k : String) (jv : Json) (rest : List (String × Json))
    (acc : List (ℤ × ℚ)) :
    buildTable ((k, jv) :: rest) acc =
      (match pyIntOfString k with
       | none => none
       | some pwm =>
         match pyFloatOfJson jv with
         | none => none
         | some voltage =>
           if ¬(0 ≤ pwm ∧ pwm ≤ 100) then buildTable rest acc
           else if ¬(0 ≤ voltage ∧ voltage ≤ 12) then buildTable rest acc
           else buildTable rest (dictInsert acc pwm voltage)) := rfl

/-- The validation loop builds exactly the parsed pairs (appended to the
accumulator) when every entry parses, is in range, and duties are fresh. -/
theorem buildTable_appends :
    ∀ (entries : List (String × Json)) (ds acc : List (ℤ × ℚ)),
      List.Forall₂ (fun (e : String × Json) (p : ℤ × ℚ) =>
        pyIntOfString e.1 = some p.1 ∧ pyFloatOfJson e.2 = some p.2)
        entries ds →
      (∀ p ∈ ds, validEntry p) →
      (dictKeys (acc ++ ds)).Nodup →
      buildTable entries acc = some (acc ++ ds) := by
  intro entries
  induction entries with
  | nil =>
    intro ds acc hf _ _
    cases hf
    simp [buildTable]
  | cons e entries ih =>
    intro ds acc hf hv hnd
    obtain ⟨k, jv⟩ := e
    cases hf with
    | cons hR hf' =>
      rename_i p ds'
      obtain ⟨pwm, volt⟩ := p
      obtain ⟨hint, hfloat⟩ := hR
      have hvp : validEntry (pwm, volt) := hv _ (List.mem_cons_self _ _)
      have hv' : ∀ q ∈ ds', validEntry q := fun q hq =>
        hv q (List.mem_cons_of_mem _ hq)
      rw [buildTable_cons]
      simp only [hint, hfloat]
      rw [if_neg (not_not_intro ⟨hvp.1, hvp.2.1⟩),
        if_neg (not_not_intro ⟨hvp.2.2.1, hvp.2.2.2⟩)]
      have hkeys : dictKeys (acc ++ (pwm, volt) :: ds') =
          dictKeys acc ++ pwm :: dictKeys ds' := by
        simp [dictKeys]
      rw [hkeys] at hnd
      have hfresh : pwm ∉ dictKeys acc := by
        intro hmem
        have := (List.nodup_append.mp hnd).2.2
        exact this hmem (List.mem_cons_self _ _)
      rw [dictInsert_append acc pwm volt hfresh]
      have hnd' : (dictKeys ((acc ++ [(pwm, volt)]) ++ ds')).Nodup := by
        have : (acc ++ [(pwm, volt)]) ++ ds' = acc ++ (pwm, volt) :: ds' := by
          simp
        rw [this, hkeys]
        exact hnd
      rw [ih ds' (acc ++ [(pwm, volt)]) hf' hv' hnd']
      simp

/-- Every table produced by the validation loop consists of entries that
passed the range checks (given a valid accumulator). -/
theorem buildTable_valid :
    ∀ (entries : List (String × Json)) (acc nt : List (ℤ × ℚ)),
      buildTable entries acc = some nt →
      (∀ p ∈ acc, validEntry p) → ∀ p ∈ nt, validEntry p := by
  intro entries
  induction entries with
  | nil =>
    intro acc nt h hacc
    rw [show buildTable [] acc = some acc from rfl] at h
    rw [Option.some_inj] at h
    exact h ▸ hacc
  | cons e entries ih =>
    intro acc nt h hacc
    obtain ⟨k, jv⟩ := e
    rw [buildTable_cons] at h
    cases hint : pyIntOfString k with
    | none =>
      simp only [hint] at h
      exact Option.noConfusion h
    | some pwm =>
      cases hfloat : pyFloatOfJson jv with
      | none =>
        simp only [hint, hfloat] at h
        exact Option.noConfusion h
      | some volt =>
        simp only [hint, hfloat] at h
        by_cases h1 : ¬(0 ≤ pwm ∧ pwm ≤ 100)
        · rw [if_pos h1] at h
          exact ih acc nt h hacc
        · rw [if_neg h1] at h
          by_cases h2 : ¬(0 ≤ volt ∧ volt ≤ 12)
          · rw [if_pos h2] at h
            exact ih acc nt h hacc
          · rw [if_neg h2] at h
            refine ih _ nt h ?_
            intro p hp
            rcases mem_dictInsert acc pwm volt p hp with rfl | hp
            · obtain ⟨ha, hb⟩ := not_not.mp h1
              obtain ⟨hc, hd⟩ := not_not.mp h2
              exact ⟨ha, hb, hc, hd⟩
            · exact hacc p hp

theorem update_some_eq (st : CalState) (gpio : ℤ) (data : Json)
    (hg : ¬(gpio ≠ 18 ∧ gpio ≠ 19)) :
    update_from_mqtt st gpio (some data) =
      (if data.falsy then ((.ok false : PyResult), st)
       else
         match data with
         | .obj entries =>
           match buildTable entries [] with
           | none => (.ok false, st)
           | some newTable =>
             if newTable.length < 2 then (.ok false, st)
             else (.ok true, setLoaded (setTable st gpio newTable) gpio)
         | _ => (.attrError, st)) := by
  rw [update_from_mqtt.eq_def, if_neg hg]

/-- C9: on channel 18 or 19, after a successful `update_from_mqtt` whose
payload entries all parse and are valid (integer duty in [0, 100], real
voltage in [0, 12], at least 2 entries, distinct duties), `export_json`
reproduces exactly the same set of (duty, voltage) pairs, serialized
sorted by duty ascending. -/
theorem update_export_roundtrip :
    ∀ (st : CalState) (gpio : ℤ) (entries : List (String × Json))
      (ds : List (ℤ × ℚ)),
      (gpio = 18 ∨ gpio = 19) →
      List.Forall₂ (fun (e : String × Json) (p : ℤ × ℚ) =>
        pyIntOfString e.1 = some p.1 ∧ pyFloatOfJson e.2 = some p.2)
        entries ds →
      (∀ p ∈ ds, validEntry p) →
      (dictKeys ds).Nodup →
      2 ≤ ds.length →
      ∃ st', update_from_mqtt st gpio (some (Json.obj entries)) =
          (.ok true, st') ∧
        export_table st' gpio = sortPoints ds ∧
        List.Perm (export_table st' gpio) ds ∧
        List.Sorted keyLE (export_table st' gpio) := by
  intro st gpio entries ds hg hf hv hnd hlen
  have hlene : entries.length = ds.length := hf.length_eq
  have hne : entries ≠ [] := by
    intro h
    rw [h] at hlene
    simp at hlene
    omega
  have hbt : buildTable entries [] = some ds := by
    have h := buildTable_appends entries ds [] hf hv (by simpa using hnd)
    simpa using h
  have hgne : ¬(gpio ≠ 18 ∧ gpio ≠ 19) := by
    rcases hg with h | h <;> simp [h]
  have hfalsy : (Json.obj entries).falsy = false := by
    cases entries with
    | nil => exact absurd rfl hne
    | cons e es => rfl
  have hup : update_from_mqtt st gpio (some (Json.obj entries)) =
      (.ok true, setLoaded (setTable st gpio ds) gpio) := by
    rw [update_some_eq st gpio (Json.obj entries) hgne]
    rw [hfalsy]
    simp only [Bool.false_eq_true, if_false, hbt]
    rw [if_neg (by omega : ¬(ds.length < 2))]
  refine ⟨setLoaded (setTable st gpio ds) gpio, hup, ?_, ?_, ?_⟩
  · rcases hg with h | h <;> subst h <;> rfl
  · rcases hg with h | h <;> subst h <;>
      exact List.perm_insertionSort keyLE ds
  · rcases hg with h | h <;> subst h <;>
      exact List.sorted_insertionSort keyLE ds

/-- Witness for C9 at the concrete payload {"0": 0, "100": 10} on
channel 18. -/
theorem update_export_roundtrip_witness :
    ∃ st', update_from_mqtt initState 18
        (some (Json.obj [("0", Json.num 0), ("100", Json.num 10)])) =
      (.ok true, st') ∧
      export_table st' 18 = sortPoints [(0, 0), (100, 10)] ∧
      List.Perm (export_table st' 18) [(0, 0), (100, 10)] ∧
      List.Sorted keyLE (export_table st' 18) :=
  update_export_roundtrip initState 18
    [("0", Json.num 0), ("100", Json.num 10)] [(0, 0), (100, 10)]
    (Or.inl rfl)
    (List.Forall₂.cons ⟨rfl, rfl⟩ (List.Forall₂.cons ⟨rfl, rfl⟩
      List.Forall₂.nil))
    (by norm_num [validEntry, List.forall_mem_cons])
    (by decide)
    (by simp)

/-- C10: every stored table has at least 2 entries, each with integer duty
in [0, 100] and voltage in [0, 12]: the invariant holds initially, is
preserved by every `update_from_mqtt` call (the read-only operations do
not touch the tables), and hence the interpolation is never reached with
an empty or single-point table through the manager. -/
theorem manager_invariant :
    calInvariant initState ∧
    (∀ (st : CalState) (gpio : ℤ) (parsed : Option Json),
      calInvariant st →
      calInvariant (update_from_mqtt st gpio parsed).2) ∧
    (∀ (st : CalState) (gpio : ℤ) (t : List (ℤ × ℚ)),
      calInvariant st → tableFor st gpio = some t →
      2 ≤ t.length ∧ ∀ p ∈ t, validEntry p) := by
  refine ⟨?_, ?_, ?_⟩
  · constructor <;>
      exact ⟨by norm_num [initState, PWM_CALIBRATION_GPIO18,
          PWM_CALIBRATION_GPIO19],
        by norm_num [initState, PWM_CALIBRATION_GPIO18,
          PWM_CALIBRATION_GPIO19, validEntry, List.forall_mem_cons]⟩
  · intro st gpio parsed hinv
    by_cases hg : gpio ≠ 18 ∧ gpio ≠ 19
    · rw [update_from_mqtt.eq_def, if_pos hg]
      exact hinv
    · cases parsed with
      | none =>
        rw [show update_from_mqtt st gpio none = (.ok false, st) from by
          rw [update_from_mqtt.eq_def, if_neg hg]]
        exact hinv
      | some data =>
        rw [update_some_eq st gpio data hg]
        by_cases hf : data.falsy
        · rw [if_pos hf]; exact hinv
        · rw [if_neg hf]
          cases data with
          | obj entries =>
            cases hbt : buildTable entries [] with
            | none => simp only [hbt]; exact hinv
            | some nt =>
              by_cases hlen : nt.length < 2
              · simp only [hbt, if_pos hlen]; exact hinv
              · simp only [hbt, if_neg hlen]
                have hvalid : ∀ p ∈ nt, validEntry p :=
                  buildTable_valid entries [] nt hbt (by simp)
                have hlen' : 2 ≤ nt.length := by omega
                have hg' : gpio = 18 ∨ gpio = 19 := by
                  rcases not_and_or.mp hg with h | h
                  · exact Or.inl (not_not.mp h)
                  · exact Or.inr (not_not.mp h)
                rcases hg' with h | h <;> subst h
                · show calInvariant { st with table18 := nt, loaded18 := true }
                  exact ⟨⟨hlen', hvalid⟩, hinv.2⟩
                · show calInvariant { st with table19 := nt, loaded19 := true }
                  exact ⟨hinv.1, hlen', hvalid⟩
          | arr l => exact hinv
          | num q => exact hinv
          | str s => exact hinv
          | bool bv => exact hinv
          | null => exact hinv
  · intro st gpio t hinv hlook
    by_cases h18 : gpio = 18
    · subst h18
      rw [show tableFor st 18 = some st.table18 from rfl,
        Option.some_inj] at hlook
      subst hlook
      exact hinv.1
    · by_cases h19 : gpio = 19
      · subst h19
        rw [show tableFor st 19 = some st.table19 from rfl,
          Option.some_inj] at hlook
        subst hlook
        exact hinv.2
      · rw [tableFor, if_neg h18, if_neg h19] at hlook
        exact Option.noConfusion hlook

/-- Witness for C10: the default GPIO-18 table satisfies the invariant as
read back through `tableFor` on the initial state. -/
theorem manager_invariant_witness :
    2 ≤ PWM_CALIBRATION_GPIO18.length ∧
    ∀ p ∈ PWM_CALIBRATION_GPIO18, validEntry p :=
  manager_invariant.2.2 initState 18 PWM_CALIBRATION_GPIO18
    manager_invariant.1 rfl

/-- Witness for C6 at percent 50 on the linear table. -/
theorem linear_identity_witness :
    _pwm_for_voltage PWM_CALIBRATION_LINEAR (50 / 100 * 10) = 50 :=
  linear_identity 50 (by norm_num) (by norm_num)

end DacBridge
